/-
Verification of the ScrapperMMA ingestion pipeline against its specification.

Shallow embedding conventions:
* Python strings are embedded as `List Char` (`Str`); Python's substring test
  `needle in hay` is `strContains needle hay`; `str.lower()` is a character-wise
  map of `Char.toLower` (the keyword and stopword literals of the repository are
  lowercase already, except `octágono` whose accent is lowercase as written).
* The SQLite `articles` table is a list of `ArticleRow` values; every row stored
  by `upsertArticle` has non-NULL fields, so Python's NULL-coalescing in the
  change check (`existing["content_hash"] or ""`, `existing["extracted_chars"] or 0`)
  is the identity and the comparison is plain equality.
* HTTP fetching, trafilatura extraction, `urlparse().netloc`, the SHA-256 hex
  digest and the clock are external effects; they are supplied as an `Oracle`
  of pure functions, with exceptions of `fetch`/`extract` as `Except` errors.
-/
import Mathlib

/-- Python strings, embedded as lists of characters. -/
abbrev Str := List Char

/-- Character-wise lowercasing: embedding of Python's `str.lower()`. -/
def lowerStr (s : Str) : Str := s.map Char.toLower

/-- Embedding of Python's substring test `needle in hay`. -/
def strContains (needle : Str) : Str → Bool
  | [] => needle.isEmpty
  | c :: t => needle.isPrefixOf (c :: t) || strContains needle t

/-- `any(k in s for k in ks)`. -/
def anyContains (ks : List Str) (s : Str) : Bool := ks.any fun k => strContains k s

theorem strContains_nil (s : Str) : strContains [] s = true := by
  cases s with
  | nil => rfl
  | cons c t => simp [strContains, List.isPrefixOf]

theorem strContains_append_right (k s t : Str) (h : strContains k s = true) :
    strContains k (s ++ t) = true := by
  induction s with
  | nil =>
    simp [strContains, List.isEmpty_iff] at h
    subst h
    exact strContains_nil t
  | cons c r ih =>
    simp only [strContains, Bool.or_eq_true] at h
    rcases h with h | h
    · have hp : k <+: c :: r := by simpa using h
      have hp2 : k <+: (c :: r) ++ t := hp.trans (List.prefix_append _ _)
      simp only [List.cons_append, strContains, Bool.or_eq_true]
      exact Or.inl (by simpa using hp2)
    · simp only [List.cons_append, strContains, Bool.or_eq_true]
      exact Or.inr (ih h)

/-! ## pipeline/run.py -/

namespace Pipeline

def MIN_CHARS : Nat := 900

def PREVIEW_CHARS : Nat := 900

def KEYWORDS_MMA : List Str :=
  ["ufc".toList, "mma".toList, "topuria".toList, "makhachev".toList, "pereira".toList,
   "volkanovski".toList, "fight night".toList, "octagono".toList, "octágono".toList]

def KEYWORDS_BOX : List Str :=
  ["boxeo".toList, "wbc".toList, "wba".toList, "ibf".toList, "wbo".toList,
   "peso pluma".toList, "peso welter".toList, "peso medio".toList,
   "canelo".toList, "inoue".toList, "tyson".toList, "crawford".toList,
   "usyk".toList, "fury".toList]

def STOPWORDS_URL : List Str :=
  ["/futbol/".toList, "/tenis/".toList, "/baloncesto/".toList, "/ciclismo/".toList,
   "/juegos-olimpicos/".toList, "/snooker/".toList, "/motor/".toList, "/formula-1/".toList,
   "/motogp/".toList, "/golf/".toList, "/rugby/".toList,
   "/calendario".toList, "/resultados".toList, "/medallero".toList, "/equipo".toList,
   "/deportes/".toList,
   "/suscrib".toList, "/registro".toList, "/inicio".toList, "/ver".toList,
   "/para-ti".toList]

/-- `f"{title} {url}"`. -/
def concat2 (title url : Str) : Str := title ++ (' ' :: url)

/-- `looks_like_combat_sports` from `pipeline/run.py`: lowercase the joined
title and URL, reject on any stopword substring, otherwise accept when an
MMA keyword or a boxing keyword occurs. -/
def looks_like_combat_sports (title url : Str) : Bool :=
  let s := lowerStr (concat2 title url)
  if anyContains STOPWORDS_URL s then false
  else anyContains KEYWORDS_MMA s || anyContains KEYWORDS_BOX s

/-- Words of a string split on whitespace runs, accumulator style:
embedding of Python's `str.split()` (no argument form). -/
def splitWsAux : Str → Str → List Str
  | [], acc => if acc.isEmpty then [] else [acc.reverse]
  | c :: t, acc =>
    if c.isWhitespace then
      if acc.isEmpty then splitWsAux t [] else acc.reverse :: splitWsAux t []
    else splitWsAux t (c :: acc)

def splitWs (s : Str) : List Str := splitWsAux s []

/-- `" ".join(ws)`. -/
def joinSpace : List Str → Str
  | [] => []
  | [w] => w
  | w :: ws => w ++ (' ' :: joinSpace ws)

/-- The normalization inside `sha`: `" ".join(text.lower().split())`. -/
def normalizeForHash (t : Str) : Str := joinSpace (splitWs (lowerStr t))

/-- `sha` from `pipeline/run.py`: normalize, truncate to 5000 characters, then
digest; the UTF-8 encoding and SHA-256 hexdigest are abstracted as `digest`. -/
def sha (digest : Str → Str) (t : Str) : Str := digest ((normalizeForHash t).take 5000)

end Pipeline

/-! ## pipeline/sitegen.py -/

namespace Sitegen

def KEYWORDS_MMA : List Str :=
  ["ufc".toList, "mma".toList, "topuria".toList, "makhachev".toList, "pereira".toList,
   "volkanovski".toList, "fight night".toList, "octagono".toList, "octágono".toList]

def KEYWORDS_BOX : List Str :=
  ["boxeo".toList, "wbc".toList, "wba".toList, "ibf".toList, "wbo".toList,
   "canelo".toList, "inoue".toList, "tyson".toList, "crawford".toList,
   "usyk".toList, "fury".toList]

/-- `f"{title} {url} {text}"`. -/
def concat3 (title url text : Str) : Str := title ++ (' ' :: (url ++ (' ' :: text)))

/-- `classify_sport` from `pipeline/sitegen.py`. -/
def classify_sport (title url text : Str) : Str :=
  let s := lowerStr (concat3 title url text)
  let mma := anyContains KEYWORDS_MMA s
  let box := anyContains KEYWORDS_BOX s
  if mma && !box then "MMA".toList
  else if box && !mma then "Boxeo".toList
  else if mma && box then "Mixto".toList
  else "Otro".toList

end Sitegen

/-! ## funcoina.py (legacy module) -/

namespace Funcoina

def KEYWORDS_MMA : List Str :=
  ["ufc".toList, "mma".toList, "topuria".toList, "makhachev".toList, "pereira".toList,
   "volkanovski".toList, "fight night".toList, "octagono".toList, "octágono".toList]

def KEYWORDS_BOX : List Str :=
  ["boxeo".toList, "wbc".toList, "wba".toList, "ibf".toList, "wbo".toList,
   "peso pluma".toList, "peso welter".toList, "peso medio".toList,
   "canelo".toList, "inoue".toList, "tyson".toList, "crawford".toList,
   "usyk".toList, "fury".toList]

def STOPWORDS_URL : List Str :=
  ["/futbol/".toList, "/tenis/".toList, "/baloncesto/".toList, "/ciclismo/".toList,
   "/juegos-olimpicos/".toList, "/snooker/".toList, "/motor/".toList, "/formula-1/".toList,
   "/motogp/".toList, "/golf/".toList, "/rugby/".toList,
   "/calendario".toList, "/resultados".toList, "/medallero".toList, "/equipo".toList,
   "/deportes/".toList,
   "/suscrib".toList, "/registro".toList, "/inicio".toList, "/ver".toList,
   "/para-ti".toList]

/-- `looks_like_combat_sports` from the legacy `funcoina.py`. -/
def looks_like_combat_sports (title url : Str) : Bool :=
  let s := lowerStr (title ++ (' ' :: url))
  if anyContains STOPWORDS_URL s then false
  else anyContains KEYWORDS_MMA s || anyContains KEYWORDS_BOX s

end Funcoina

/-! ## pipeline/storage.py -/

namespace Storage

/-- The `ArticleRow` dataclass of `pipeline/storage.py`, also the shape of a
row of the `articles` table (every stored row is written from an `ArticleRow`,
so all columns are non-NULL; `extracted_chars` is a text length, hence `Nat`). -/
structure ArticleRow where
  url : Str
  final_url : Str
  title : Str
  source : Str
  published : Str
  domain : Str
  fetched_at : Str
  extracted_chars : Nat
  content_hash : Str
  text : Str
deriving DecidableEq

/-- The `articles` table, URL-keyed by construction (`url` is the primary key;
all writes go through `upsertArticle`, which inserts a URL at most once). -/
abbrev Store := List ArticleRow

/-- `SQLiteStore.get_by_url`: `SELECT * FROM articles WHERE url = ?`. -/
def getByUrl (s : Store) (url : Str) : Option ArticleRow :=
  s.find? fun r => r.url == url

/-- `SQLiteStore.has_url`: `SELECT 1 FROM articles WHERE url = ? LIMIT 1` is
an existence probe. -/
def has_url (s : Store) (url : Str) : Bool :=
  s.any fun r => r.url == url

inductive UpsertResult where
  | new
  | updated
  | unchanged
deriving DecidableEq

/-- `SQLiteStore.upsert_article`. The change check compares
`(existing["content_hash"] or "") == (a.content_hash or "")` and
`(existing["extracted_chars"] or 0) == a.extracted_chars`; on the non-NULL
values this model stores, Python's `or`-coalescing is the identity, so the
comparison is plain equality. The `UPDATE ... WHERE url = ?` keeps the key
column and overwrites every other field. -/
def upsertArticle (s : Store) (a : ArticleRow) : UpsertResult × Store :=
  match getByUrl s a.url with
  | none => (.new, s ++ [a])
  | some ex =>
    if ex.content_hash == a.content_hash && ex.extracted_chars == a.extracted_chars then
      (.unchanged, s)
    else
      (.updated, s.map fun r => if r.url == a.url then { a with url := r.url } else r)

/-- Descending `fetched_at` order: `fetchedGe a b` says `a` sorts no later
than `b` under `ORDER BY fetched_at DESC` (SQLite compares TEXT by bytes,
which on UTF-8 is the lexicographic order on characters). -/
def fetchedGe (a b : ArticleRow) : Prop := b.fetched_at ≤ a.fetched_at

instance : DecidableRel fetchedGe := fun a b =>
  inferInstanceAs (Decidable (b.fetched_at ≤ a.fetched_at))

instance : IsTotal ArticleRow fetchedGe :=
  ⟨fun a b => le_total b.fetched_at a.fetched_at⟩

instance : IsTrans ArticleRow fetchedGe :=
  ⟨fun _ _ _ hab hbc => le_trans hbc hab⟩

/-- `SQLiteStore.list_recent`: `SELECT * FROM articles ORDER BY fetched_at DESC
LIMIT ?`. The `days` parameter is accepted but never used by the query. The
SQL sort order on ties is unspecified; the model fixes a deterministic sort. -/
def listRecent (s : Store) (days : Int) (limit : Nat) : List ArticleRow :=
  (List.insertionSort fetchedGe s).take limit

end Storage

/-! ## The candidate loop of `main` in pipeline/run.py -/

namespace Orchestrator

open Storage

/-- One discovered candidate: the `{"title", "url", "published"}` dicts
produced by `get_urls_from_rss` / `get_urls_from_html_list`. -/
structure Candidate where
  title : Str
  url : Str
  published : Str
deriving DecidableEq

/-- The fields of a `SOURCES` entry that the candidate loop reads. -/
structure SourceInfo where
  name : Str
  stype : Str
  surl : Str
deriving DecidableEq

/-- The run counters mutated by the candidate loop. -/
structure Counters where
  total_candidates : Nat
  stored_new : Nat
  stored_updated : Nat
  skipped_existing : Nat
  extract_ok : Nat
deriving DecidableEq

/-- External effects of one run, as pure functions: `fetch` returns
`(status, final_url, html)` or raises (an `Except.error` carrying `repr(ex)`),
`extract` is `trafilatura` extraction which may also raise, `digest` is the
SHA-256 hexdigest over the UTF-8 encoding, `netloc` is `urlparse(u).netloc`,
and `now` is `SQLiteStore.now_utc_iso()` (timestamps within one run are
abstracted to a single value; no claim depends on their succession). -/
structure Oracle where
  fetch : Str → Except Str (Int × Str × Str)
  extract : Str → Except Str Str
  digest : Str → Str
  netloc : Str → Str
  now : Str

/-- One entry of the `rows_probe` debug JSON. A missing `error` key is
`none`. -/
structure ProbeRow where
  source : Str
  source_type : Str
  rss_or_list_url : Str
  title : Str
  url : Str
  published : Str
  http_status : Option Int
  final_url : Option Str
  domain : Option Str
  extracted_chars : Nat
  extract_ok : Bool
  content_hash : Str
  text_preview : Str
  error : Option Str
deriving DecidableEq

/-- Observable actions of the loop; only `fetch` calls matter to the claims. -/
inductive Event where
  | fetchCall (url : Str)
deriving DecidableEq

structure StepOut where
  events : List Event
  row? : Option ProbeRow
  store : Store
  counters : Counters
deriving DecidableEq

structure RunOut where
  events : List Event
  rows : List ProbeRow
  store : Store
  counters : Counters
deriving DecidableEq

/-- The probe row written by the `except` branch of the candidate loop:
network fields null, zero extracted characters, `repr(ex)` as `error`. -/
def errRow (src : SourceInfo) (c : Candidate) (ex : Str) : ProbeRow :=
  { source := src.name, source_type := src.stype, rss_or_list_url := src.surl,
    title := c.title, url := c.url, published := c.published,
    http_status := none, final_url := none, domain := none,
    extracted_chars := 0, extract_ok := false, content_hash := [],
    text_preview := [], error := some ex }

/-- `f"Low extracted chars (<{MIN_CHARS})."` with `MIN_CHARS = 900`. -/
def lowMsg : Str := "Low extracted chars (<900).".toList

/-- One iteration of `for it in items` in `main`: topic filter, pre-fetch
dedup via `has_url`, then fetch/extract/threshold/upsert under `try`, with
the `except` branch recording an error row and writing nothing. -/
def processCandidate (o : Oracle) (src : SourceInfo) (s : Store) (cnt : Counters)
    (c : Candidate) : StepOut :=
  let cnt := { cnt with total_candidates := cnt.total_candidates + 1 }
  if Pipeline.looks_like_combat_sports c.title c.url = false then
    { events := [], row? := none, store := s, counters := cnt }
  else if has_url s c.url then
    { events := [], row? := none, store := s,
      counters := { cnt with skipped_existing := cnt.skipped_existing + 1 } }
  else
    match o.fetch c.url with
    | .error ex =>
      { events := [.fetchCall c.url], row? := some (errRow src c ex),
        store := s, counters := cnt }
    | .ok (status, final_url, html) =>
      match o.extract html with
      | .error ex =>
        { events := [.fetchCall c.url], row? := some (errRow src c ex),
          store := s, counters := cnt }
      | .ok text =>
        let domain := o.netloc final_url
        let fetched_at := o.now
        let okFlag : Bool := decide (Pipeline.MIN_CHARS ≤ text.length)
        let hash : Str := if text.isEmpty then [] else Pipeline.sha o.digest text
        let baseRow : ProbeRow :=
          { source := src.name, source_type := src.stype, rss_or_list_url := src.surl,
            title := c.title, url := c.url, published := c.published,
            http_status := some status, final_url := some final_url,
            domain := some domain, extracted_chars := text.length,
            extract_ok := okFlag, content_hash := hash,
            text_preview := if text.isEmpty then [] else text.take Pipeline.PREVIEW_CHARS,
            error := none }
        if okFlag then
          let art : ArticleRow :=
            { url := c.url, final_url := final_url, title := c.title,
              source := src.name, published := c.published, domain := domain,
              fetched_at := fetched_at, extracted_chars := text.length,
              content_hash := hash, text := text }
          let res := upsertArticle s art
          { events := [.fetchCall c.url], row? := some baseRow,
            store := res.2,
            counters := { cnt with
              extract_ok := cnt.extract_ok + 1,
              stored_new := cnt.stored_new + (if res.1 = .new then 1 else 0),
              stored_updated := cnt.stored_updated + (if res.1 = .updated then 1 else 0) } }
        else
          { events := [.fetchCall c.url],
            row? := some { baseRow with error := some lowMsg },
            store := s, counters := cnt }

/-- The candidate loop over one source's `items` list, threading the store and
the counters and collecting the probe rows and the fetch events. -/
def runCandidates (o : Oracle) (src : SourceInfo) (s : Store) (cnt : Counters) :
    List Candidate → RunOut
  | [] => { events := [], rows := [], store := s, counters := cnt }
  | c :: cs =>
    let st := processCandidate o src s cnt c
    let rest := runCandidates o src st.store st.counters cs
    { events := st.events ++ rest.events,
      rows := st.row?.toList ++ rest.rows,
      store := rest.store,
      counters := rest.counters }

/-- A digest function standing in for SHA-256 hexdigest: its output is never
the empty string (`hexdigest()` always returns 64 hex characters). -/
def GoodDigest (o : Oracle) : Prop := ∀ t, o.digest t ≠ []

/-- Store states reachable by running candidate loops from the empty store
(discovery never touches the store, so a pipeline run's effect on the
`articles` table is exactly a sequence of candidate loops). -/
inductive ReachableStore : Store → Prop where
  | empty : ReachableStore []
  | step (o : Oracle) (src : SourceInfo) (cnt : Counters) (cs : List Candidate)
      {s : Store} :
      GoodDigest o → ReachableStore s →
      ReachableStore (runCandidates o src s cnt cs).store

end Orchestrator

/-! ## Listing-mode discovery: `get_urls_from_html_list` in pipeline/run.py -/

namespace Pipeline

/-- One `<a href=...>` element of the parsed listing page: `href` is the raw
attribute, `text` the whitespace-normalized link text
(`a.get_text(" ", strip=True)` then `.strip()`, both external). -/
structure Anchor where
  href : Str
  text : Str
deriving DecidableEq

def ASSET_EXTS : List Str :=
  [".jpg".toList, ".png".toList, ".svg".toList, ".css".toList, ".js".toList,
   ".webp".toList, ".mp4".toList, ".woff".toList, ".woff2".toList]

def NAV_PATTERNS : List Str :=
  ["/inicio".toList, "/ver".toList, "/para-ti".toList, "/suscrib".toList,
   "/registro".toList, "/deportes".toList, "/resultados".toList,
   "/calendario".toList, "/medallero".toList, "/equipo".toList]

/-- The per-anchor filter body of `get_urls_from_html_list`; `scheme` and
`netloc` are `urlparse(final_url).scheme` / `.netloc` of the fetched listing
page. Returns the candidate appended to `candidates`, or `none` on any
`continue`. -/
def anchorCandidate (scheme netloc : Str) (a : Anchor) : Option Orchestrator.Candidate :=
  if a.href.isEmpty || a.text.length < 18 then none
  else
    let href := if "/".toList.isPrefixOf a.href
      then scheme ++ ("://".toList ++ (netloc ++ a.href))
      else a.href
    if !("http".toList.isPrefixOf href) then none
    else
      let href_l := lowerStr href
      if ASSET_EXTS.any (fun e => List.isSuffixOf e href_l) then none
      else if NAV_PATTERNS.any (fun p => strContains p href_l) then none
      else if href_l.count '/' < 4 then none
      else some { title := a.text, url := href, published := [] }

/-- The dedupe-and-cap loop at the end of `get_urls_from_html_list`: skip seen
URLs, append otherwise, and break once `len(out) >= limit` (checked after the
append, so even `limit = 0` yields one element). `limit` here is the remaining
capacity. -/
def dedupeLimit (limit : Nat) : List Orchestrator.Candidate → List Str →
    List Orchestrator.Candidate
  | [], _ => []
  | c :: cs, seen =>
    if c.url ∈ seen then dedupeLimit limit cs seen
    else if limit ≤ 1 then [c]
    else c :: dedupeLimit (limit - 1) cs (c.url :: seen)

/-- `get_urls_from_html_list`, with the fetched page's resolved scheme and
netloc and the parsed anchors supplied as inputs (fetching and HTML parsing
are external). -/
def get_urls_from_html_list (scheme netloc : Str) (anchors : List Anchor)
    (limit : Nat) : List Orchestrator.Candidate :=
  dedupeLimit limit (anchors.filterMap (anchorCandidate scheme netloc)) []

/-- Modelled from the spec: the `path` component of an absolute `http(s)` URL
as `urllib.parse.urlparse` returns it — everything from the first `/` after
the `scheme://authority` prefix (queries and fragments are not modelled; the
repository never computes a URL path for the depth check, so this definition
exists only to state the claim about path separators). -/
def dropUntilSlash : Str → Str
  | [] => []
  | c :: t => if c = '/' then c :: t else dropUntilSlash t

def stripScheme : Str → Str
  | [] => []
  | c :: t =>
    if c = ':' && "//".toList.isPrefixOf t then t.drop 2 else stripScheme t

def urlPath (u : Str) : Str := dropUntilSlash (stripScheme u)

end Pipeline

/-! ## Helper lemmas -/

theorem toLower_space : Char.toLower ' ' = ' ' := rfl

theorem char_toNat_ofNat_of_lt (m : Nat) (h : m < 55296) : (Char.ofNat m).toNat = m := by
  have hv : m.isValidChar := Or.inl h
  rw [Char.ofNat, dif_pos hv]
  rfl

theorem toLower_eq_slash (c : Char) : Char.toLower c = '/' ↔ c = '/' := by
  by_cases h : c.toNat ≥ 65 ∧ c.toNat ≤ 90
  · rw [Char.toLower, if_pos h]
    constructor
    · intro habs
      exfalso
      have h1 : (Char.ofNat (c.toNat + 32)).toNat = ('/' : Char).toNat := by rw [habs]
      rw [char_toNat_ofNat_of_lt (c.toNat + 32) (by omega)] at h1
      have h2 : ('/' : Char).toNat = 47 := rfl
      omega
    · intro hc
      subst hc
      exact absurd h (by decide)
  · rw [Char.toLower, if_neg h]

theorem count_slash_lowerStr (s : Str) : (lowerStr s).count '/' = s.count '/' := by
  induction s with
  | nil => rfl
  | cons c t ih =>
    have hc : (Char.toLower c == '/') = (c == '/') := by
      by_cases h : c = '/'
      · simp [h, toLower_eq_slash]
      · simp [h, (toLower_eq_slash c).not.mpr h]
    simp only [lowerStr, List.map_cons, List.count_cons] at ih ⊢
    rw [ih, hc]

theorem lowerStr_append (a b : Str) : lowerStr (a ++ b) = lowerStr a ++ lowerStr b :=
  List.map_append _ _ _

/-- `f"{title} {url} {text}"` extends `f"{title} {url}"` on the right. -/
theorem concat3_decomp (t u x : Str) :
    Sitegen.concat3 t u x = Pipeline.concat2 t u ++ (' ' :: x) := by
  simp [Sitegen.concat3, Pipeline.concat2]

theorem lowerStr_concat3 (t u x : Str) :
    lowerStr (Sitegen.concat3 t u x) =
      lowerStr t ++ (' ' :: (lowerStr u ++ (' ' :: lowerStr x))) := by
  simp [Sitegen.concat3, lowerStr, toLower_space]

theorem has_url_iff (s : Storage.Store) (url : Str) :
    Storage.has_url s url = true ↔ ∃ r ∈ s, r.url = url := by
  simp [Storage.has_url, List.any_eq_true]

theorem upsert_of_missing (s : Storage.Store) (a : Storage.ArticleRow)
    (h : Storage.getByUrl s a.url = none) :
    Storage.upsertArticle s a = (.new, s ++ [a]) := by
  unfold Storage.upsertArticle
  rw [h]

theorem upsert_of_found (s : Storage.Store) (a ex : Storage.ArticleRow)
    (h : Storage.getByUrl s a.url = some ex) :
    Storage.upsertArticle s a =
      if ex.content_hash == a.content_hash && ex.extracted_chars == a.extracted_chars
      then (.unchanged, s)
      else (.updated,
        s.map fun r => if r.url == a.url then { a with url := r.url } else r) := by
  unfold Storage.upsertArticle
  rw [h]

theorem has_url_upsert (s : Storage.Store) (a : Storage.ArticleRow) (u : Str)
    (h : Storage.has_url s u = true) :
    Storage.has_url (Storage.upsertArticle s a).2 u = true := by
  rw [has_url_iff] at h ⊢
  obtain ⟨r, hr, hru⟩ := h
  rcases hfind : Storage.getByUrl s a.url with _ | ex
  · rw [upsert_of_missing s a hfind]
    exact ⟨r, by simp [hr], hru⟩
  · rw [upsert_of_found s a ex hfind]
    by_cases hc : (ex.content_hash == a.content_hash &&
        ex.extracted_chars == a.extracted_chars) = true
    · rw [if_pos hc]
      exact ⟨r, hr, hru⟩
    · rw [if_neg hc]
      refine ⟨if r.url == a.url then { a with url := r.url } else r,
        List.mem_map_of_mem _ hr, ?_⟩
      by_cases hcase : (r.url == a.url) = true
      · rw [if_pos hcase]
        exact hru
      · rw [if_neg hcase]
        exact hru

theorem mem_upsert_store (s : Storage.Store) (a r : Storage.ArticleRow)
    (hr : r ∈ (Storage.upsertArticle s a).2) :
    r ∈ s ∨ (r.extracted_chars = a.extracted_chars ∧ r.content_hash = a.content_hash) := by
  rcases hfind : Storage.getByUrl s a.url with _ | ex
  · rw [upsert_of_missing s a hfind] at hr
    simp only [List.mem_append, List.mem_singleton] at hr
    rcases hr with hr | hr
    · exact Or.inl hr
    · subst hr; exact Or.inr ⟨rfl, rfl⟩
  · rw [upsert_of_found s a ex hfind] at hr
    by_cases hc : (ex.content_hash == a.content_hash &&
        ex.extracted_chars == a.extracted_chars) = true
    · rw [if_pos hc] at hr
      exact Or.inl hr
    · rw [if_neg hc] at hr
      simp only [List.mem_map] at hr
      obtain ⟨x, hxs, hx⟩ := hr
      by_cases hcase : (x.url == a.url) = true
      · rw [if_pos hcase] at hx
        subst hx; exact Or.inr ⟨rfl, rfl⟩
      · rw [if_neg hcase] at hx
        subst hx; exact Or.inl hxs

/-! ## Claim C1 -/

/-- C1: for every store state and every incoming article whose URL already has
a stored row, `upsert_article` returns `"updated"` iff the incoming
`content_hash` or `extracted_chars` differs from the stored row's values; when
both are equal — in particular when a change is confined to any other field —
the result is `"unchanged"` and the store is not written. -/
theorem upsert_updated_iff_content_change
    (s : Storage.Store) (a ex : Storage.ArticleRow)
    (h : Storage.getByUrl s a.url = some ex) :
    (((Storage.upsertArticle s a).1 = .updated) ↔
      (ex.content_hash ≠ a.content_hash ∨ ex.extracted_chars ≠ a.extracted_chars))
    ∧ (ex.content_hash = a.content_hash ∧ ex.extracted_chars = a.extracted_chars →
        (Storage.upsertArticle s a).1 = .unchanged ∧ (Storage.upsertArticle s a).2 = s) := by
  rw [upsert_of_found s a ex h]
  by_cases hc : ex.content_hash = a.content_hash ∧ ex.extracted_chars = a.extracted_chars
  · rw [if_pos (by simp [hc.1, hc.2])]
    constructor
    · simp [hc.1, hc.2]
    · intro _; exact ⟨rfl, rfl⟩
  · rw [if_neg (by simp only [Bool.and_eq_true, beq_iff_eq]; exact hc)]
    constructor
    · exact ⟨fun _ => not_and_or.mp hc, fun _ => rfl⟩
    · intro habs; exact absurd habs hc

def w1Row : Storage.ArticleRow :=
  { url := "https://example.com/a".toList, final_url := "https://example.com/a".toList,
    title := "old title".toList, source := "marca_portada".toList,
    published := "2025-01-01".toList, domain := "example.com".toList,
    fetched_at := "2025-01-02T00:00:00+00:00".toList, extracted_chars := 1200,
    content_hash := "abc".toList, text := "old text".toList }

/-- The same URL with only metadata changed (`title`, `published`,
`fetched_at`), hash and length equal. -/
def w1Meta : Storage.ArticleRow :=
  { w1Row with
      title := "new title".toList, published := "2025-02-01".toList,
      fetched_at := "2025-02-02T00:00:00+00:00".toList }

/-- The same URL with changed content hash. -/
def w1New : Storage.ArticleRow := { w1Row with content_hash := "def".toList }

theorem upsert_updated_iff_content_change_witness :
    (((Storage.upsertArticle [w1Row] w1New).1 = .updated) ↔
      (w1Row.content_hash ≠ w1New.content_hash ∨
        w1Row.extracted_chars ≠ w1New.extracted_chars))
    ∧ (w1Row.content_hash = w1Meta.content_hash ∧
        w1Row.extracted_chars = w1Meta.extracted_chars →
        (Storage.upsertArticle [w1Row] w1Meta).1 = .unchanged ∧
        (Storage.upsertArticle [w1Row] w1Meta).2 = [w1Row]) :=
  ⟨(upsert_updated_iff_content_change [w1Row] w1New w1Row (by decide)).1,
   (upsert_updated_iff_content_change [w1Row] w1Meta w1Row (by decide)).2⟩

/-! ## Claim C2 -/

/-- C2: for every article whose URL has no row, upserting it returns `"new"`,
and upserting the identical article again returns `"unchanged"` and leaves the
store state exactly as it was after the first call. -/
theorem upsert_new_then_unchanged
    (s : Storage.Store) (a : Storage.ArticleRow)
    (h : Storage.getByUrl s a.url = none) :
    (Storage.upsertArticle s a).1 = .new ∧
    (Storage.upsertArticle (Storage.upsertArticle s a).2 a).1 = .unchanged ∧
    (Storage.upsertArticle (Storage.upsertArticle s a).2 a).2 =
      (Storage.upsertArticle s a).2 := by
  have h1 : Storage.upsertArticle s a = (.new, s ++ [a]) := by
    unfold Storage.upsertArticle
    rw [h]
  have hfind : Storage.getByUrl (s ++ [a]) a.url = some a := by
    unfold Storage.getByUrl at h ⊢
    rw [List.find?_append, h]
    simp
  have h2 : Storage.upsertArticle (s ++ [a]) a = (.unchanged, s ++ [a]) := by
    unfold Storage.upsertArticle
    rw [hfind]
    simp
  rw [h1]
  simp [h2]

theorem upsert_new_then_unchanged_witness :
    (Storage.upsertArticle [] w1Row).1 = .new ∧
    (Storage.upsertArticle (Storage.upsertArticle [] w1Row).2 w1Row).1 = .unchanged ∧
    (Storage.upsertArticle (Storage.upsertArticle [] w1Row).2 w1Row).2 =
      (Storage.upsertArticle [] w1Row).2 :=
  upsert_new_then_unchanged [] w1Row (by decide)

/-! ## Claim C10 -/

/-- C10: the legacy topic filter in `funcoina.py` and the one in
`pipeline/run.py` are extensionally equal: identical keyword lists, identical
stopword lists, identical logic. -/
theorem funcoina_pipeline_filter_agree :
    ∀ title url : Str,
      Funcoina.looks_like_combat_sports title url =
        Pipeline.looks_like_combat_sports title url :=
  fun _ _ => rfl

/-! ## Claims C4 and C5: the sport classifier -/

/-- `classify_sport` never returns `"Otro"` once one of the sitegen keyword
lists matches the lowercased concatenation. -/
theorem classify_ne_otro_of_match (t u x : Str)
    (h : anyContains Sitegen.KEYWORDS_MMA (lowerStr (Sitegen.concat3 t u x)) = true ∨
      anyContains Sitegen.KEYWORDS_BOX (lowerStr (Sitegen.concat3 t u x)) = true) :
    Sitegen.classify_sport t u x ≠ "Otro".toList := by
  unfold Sitegen.classify_sport
  rcases h with h | h
  · cases hb : anyContains Sitegen.KEYWORDS_BOX (lowerStr (Sitegen.concat3 t u x)) with
    | false => simp [h, hb]
    | true => simp [h, hb]
  · cases hm : anyContains Sitegen.KEYWORDS_MMA (lowerStr (Sitegen.concat3 t u x)) with
    | false => simp [h, hm]
    | true => simp [h, hm]

/-- The three boxing keywords present in `KEYWORDS_BOX` of `pipeline/run.py`
(and `funcoina.py`) but absent from `KEYWORDS_BOX` of `pipeline/sitegen.py`. -/
def PESO_TERMS : List Str :=
  ["peso pluma".toList, "peso welter".toList, "peso medio".toList]

theorem pipeline_box_mem (k : Str) (hk : k ∈ Pipeline.KEYWORDS_BOX) :
    k ∈ PESO_TERMS ∨ k ∈ Sitegen.KEYWORDS_BOX := by
  fin_cases hk <;> simp [PESO_TERMS, Sitegen.KEYWORDS_BOX]

/-- C4 (corrected): the topic filter and the classifier do NOT test the same
two keyword lists — `peso pluma` is accepted by the filter but unknown to the
classifier, which then returns `"Otro"` even for the empty text. -/
theorem filter_accepts_but_classifier_otro :
    Pipeline.looks_like_combat_sports
      "Gran velada de peso pluma".toList "https://example.com/a/b/c".toList = true ∧
    Sitegen.classify_sport
      "Gran velada de peso pluma".toList "https://example.com/a/b/c".toList []
      = "Otro".toList := by
  decide

/-- C4 (amended): for every (title, url) accepted by the topic filter whose
lowercased title-and-URL string contains none of the three weight-class terms
(`peso pluma`, `peso welter`, `peso medio` — present in the filter's boxing
list but missing from the classifier's), and for every text including the
empty string, `classify_sport` does not return `"Otro"`: every other filter
keyword also appears in the classifier's lists and still matches the longer
lowercased concatenation. -/
theorem classify_not_otro_of_filter
    (title url text : Str)
    (hacc : Pipeline.looks_like_combat_sports title url = true)
    (hpeso : anyContains PESO_TERMS (lowerStr (Pipeline.concat2 title url)) = false) :
    Sitegen.classify_sport title url text ≠ "Otro".toList := by
  have hdec : lowerStr (Sitegen.concat3 title url text) =
      lowerStr (Pipeline.concat2 title url) ++ lowerStr (' ' :: text) := by
    rw [concat3_decomp, lowerStr_append]
  unfold Pipeline.looks_like_combat_sports at hacc
  by_cases hstop :
      anyContains Pipeline.STOPWORDS_URL (lowerStr (Pipeline.concat2 title url)) = true
  · rw [if_pos hstop] at hacc
    exact absurd hacc (by decide)
  · rw [if_neg hstop] at hacc
    rcases Bool.or_eq_true _ _ |>.mp hacc with hm | hb
    · obtain ⟨k, hk, hks⟩ := List.any_eq_true.mp hm
      refine classify_ne_otro_of_match title url text (Or.inl ?_)
      refine List.any_eq_true.mpr ⟨k, hk, ?_⟩
      rw [hdec]
      exact strContains_append_right _ _ _ hks
    · obtain ⟨k, hk, hks⟩ := List.any_eq_true.mp hb
      rcases pipeline_box_mem k hk with hkp | hkbox
      · have hany : anyContains PESO_TERMS (lowerStr (Pipeline.concat2 title url)) = true := by
          unfold anyContains
          exact List.any_eq_true.mpr ⟨k, hkp, hks⟩
        rw [hpeso] at hany
        exact absurd hany (by decide)
      · refine classify_ne_otro_of_match title url text (Or.inr ?_)
        refine List.any_eq_true.mpr ⟨k, hkbox, ?_⟩
        rw [hdec]
        exact strContains_append_right _ _ _ hks

theorem classify_not_otro_of_filter_witness :
    Sitegen.classify_sport
      "UFC 300: Topuria retains title".toList
      "https://example.com/ufc-300-topuria".toList [] ≠ "Otro".toList :=
  classify_not_otro_of_filter
    "UFC 300: Topuria retains title".toList
    "https://example.com/ufc-300-topuria".toList [] (by decide) (by decide)

/-- C5 (corrected): `classify_sport` is NOT independent of which field holds
which string — the two-word keyword `fight night` matches when `title` holds
`fight` and `url` holds `night` but not after swapping them. -/
theorem classify_not_permutation_invariant :
    Sitegen.classify_sport "fight".toList "night".toList [] ≠
      Sitegen.classify_sport "night".toList "fight".toList [] := by
  decide

/-- C5 (amended): `classify_sport` returns exactly one of the four categories
`MMA`, `Boxeo`, `Mixto`, `Otro` for every input triple, and it is
case-insensitive: replacing any argument by a case-variant (a string with the
same character-wise lowercasing) gives the same result. Independence under
permuting the three arguments does not hold (see the counterexample). -/
theorem classify_sport_total_and_case_insensitive
    (t u x t' u' x' : Str)
    (ht : lowerStr t' = lowerStr t) (hu : lowerStr u' = lowerStr u)
    (hx : lowerStr x' = lowerStr x) :
    (Sitegen.classify_sport t u x = "MMA".toList ∨
     Sitegen.classify_sport t u x = "Boxeo".toList ∨
     Sitegen.classify_sport t u x = "Mixto".toList ∨
     Sitegen.classify_sport t u x = "Otro".toList)
    ∧ Sitegen.classify_sport t' u' x' = Sitegen.classify_sport t u x := by
  constructor
  · unfold Sitegen.classify_sport
    dsimp only
    split_ifs <;> simp
  · have hs : lowerStr (Sitegen.concat3 t' u' x') = lowerStr (Sitegen.concat3 t u x) := by
      rw [lowerStr_concat3, lowerStr_concat3, ht, hu, hx]
    unfold Sitegen.classify_sport
    rw [hs]

theorem classify_sport_total_and_case_insensitive_witness :
    (Sitegen.classify_sport "Canelo".toList "https://x".toList "pelea".toList
        = "MMA".toList ∨
     Sitegen.classify_sport "Canelo".toList "https://x".toList "pelea".toList
        = "Boxeo".toList ∨
     Sitegen.classify_sport "Canelo".toList "https://x".toList "pelea".toList
        = "Mixto".toList ∨
     Sitegen.classify_sport "Canelo".toList "https://x".toList "pelea".toList
        = "Otro".toList)
    ∧ Sitegen.classify_sport "CANELO".toList "HTTPS://X".toList "PELEA".toList =
        Sitegen.classify_sport "Canelo".toList "https://x".toList "pelea".toList :=
  classify_sport_total_and_case_insensitive
    "Canelo".toList "https://x".toList "pelea".toList
    "CANELO".toList "HTTPS://X".toList "PELEA".toList
    (by decide) (by decide) (by decide)

/-! ## Claim C6: list_recent ignores the days parameter -/

/-- C6: for every store state, every limit, and any two values of the `days`
parameter, `list_recent` returns the same result — all stored articles ordered
by `fetched_at` descending, capped at `limit`, with no timestamp lower bound:
when the store fits under the limit even the oldest row is returned. -/
theorem list_recent_ignores_days
    (s : Storage.Store) (d1 d2 : Int) (limit : Nat) :
    Storage.listRecent s d1 limit = Storage.listRecent s d2 limit
    ∧ List.Sorted Storage.fetchedGe (Storage.listRecent s d1 limit)
    ∧ (∀ a ∈ Storage.listRecent s d1 limit, a ∈ s)
    ∧ (Storage.listRecent s d1 limit).length = min limit s.length
    ∧ (s.length ≤ limit → ∀ a ∈ s, a ∈ Storage.listRecent s d1 limit) := by
  refine ⟨rfl, ?_, ?_, ?_, ?_⟩
  · exact List.Pairwise.sublist (List.take_sublist _ _)
      (List.sorted_insertionSort Storage.fetchedGe s)
  · intro a ha
    exact (List.mem_insertionSort Storage.fetchedGe).mp (List.take_subset _ _ ha)
  · rw [Storage.listRecent, List.length_take, List.length_insertionSort]
  · intro hlen a ha
    rw [Storage.listRecent, List.take_of_length_le]
    · exact (List.mem_insertionSort Storage.fetchedGe).mpr ha
    · rw [List.length_insertionSort]
      exact hlen

def w6Old : Storage.ArticleRow :=
  { url := "https://example.com/old".toList, final_url := "https://example.com/old".toList,
    title := "old".toList, source := "marca_portada".toList, published := [],
    domain := "example.com".toList, fetched_at := "2020-01-01T00:00:00+00:00".toList,
    extracted_chars := 1000, content_hash := "aa".toList, text := "x".toList }

def w6New : Storage.ArticleRow :=
  { url := "https://example.com/new".toList, final_url := "https://example.com/new".toList,
    title := "new".toList, source := "marca_portada".toList, published := [],
    domain := "example.com".toList, fetched_at := "2026-01-01T00:00:00+00:00".toList,
    extracted_chars := 1000, content_hash := "bb".toList, text := "y".toList }

theorem list_recent_ignores_days_witness :
    Storage.listRecent [w6Old, w6New] 1 5 = Storage.listRecent [w6Old, w6New] 10000 5
    ∧ w6Old ∈ Storage.listRecent [w6Old, w6New] 1 5 :=
  ⟨(list_recent_ignores_days [w6Old, w6New] 1 10000 5).1,
   (list_recent_ignores_days [w6Old, w6New] 1 10000 5).2.2.2.2 (by decide) w6Old (by decide)⟩

/-! ## Claim C7: minimum link depth in listing discovery -/

theorem mem_dedupeLimit (limit : Nat) (l : List Orchestrator.Candidate)
    (seen : List Str) (c : Orchestrator.Candidate)
    (hc : c ∈ Pipeline.dedupeLimit limit l seen) : c ∈ l := by
  induction l generalizing limit seen with
  | nil => simp [Pipeline.dedupeLimit] at hc
  | cons c0 cs ih =>
    unfold Pipeline.dedupeLimit at hc
    by_cases h1 : c0.url ∈ seen
    · rw [if_pos h1] at hc
      exact List.mem_cons_of_mem _ (ih _ _ hc)
    · rw [if_neg h1] at hc
      by_cases h2 : limit ≤ 1
      · rw [if_pos h2] at hc
        rw [List.mem_singleton.mp hc]
        exact List.mem_cons_self _ _
      · rw [if_neg h2] at hc
        rcases List.mem_cons.mp hc with h | h
        · rw [h]; exact List.mem_cons_self _ _
        · exact List.mem_cons_of_mem _ (ih _ _ h)

theorem anchorCandidate_slash_count (scheme netloc : Str) (a : Pipeline.Anchor)
    (c : Orchestrator.Candidate)
    (hc : Pipeline.anchorCandidate scheme netloc a = some c) :
    4 ≤ c.url.count '/' := by
  unfold Pipeline.anchorCandidate at hc
  by_cases h1 : a.href.isEmpty || decide (a.text.length < 18)
  · rw [if_pos h1] at hc
    exact absurd hc (by simp)
  · rw [if_neg h1] at hc
    set href := if "/".toList.isPrefixOf a.href
      then scheme ++ ("://".toList ++ (netloc ++ a.href))
      else a.href with hhref
    by_cases h2 : !("http".toList.isPrefixOf href)
    · rw [if_pos h2] at hc
      exact absurd hc (by simp)
    · rw [if_neg h2] at hc
      by_cases h3 : Pipeline.ASSET_EXTS.any fun e => List.isSuffixOf e (lowerStr href)
      · rw [if_pos h3] at hc
        exact absurd hc (by simp)
      · rw [if_neg h3] at hc
        by_cases h4 : Pipeline.NAV_PATTERNS.any fun p => strContains p (lowerStr href)
        · rw [if_pos h4] at hc
          exact absurd hc (by simp)
        · rw [if_neg h4] at hc
          by_cases h5 : (lowerStr href).count '/' < 4
          · rw [if_pos h5] at hc
            exact absurd hc (by simp)
          · rw [if_neg h5] at hc
            have hurl : c.url = href := by
              rw [← Option.some_inj.mp hc]
            rw [hurl]
            rw [count_slash_lowerStr] at h5
            omega

/-- C7 (amended): the depth filter of `get_urls_from_html_list` counts `/`
characters in the entire lowercased resolved href — including the two slashes
of `://` — not in its URL path; every returned Candidate has a URL containing
at least 4 `/` characters in the full URL string. -/
theorem html_list_url_slash_count
    (scheme netloc : Str) (anchors : List Pipeline.Anchor) (limit : Nat)
    (c : Orchestrator.Candidate)
    (hc : c ∈ Pipeline.get_urls_from_html_list scheme netloc anchors limit) :
    4 ≤ c.url.count '/' := by
  have hmem := mem_dedupeLimit limit _ [] c hc
  obtain ⟨a, _, ha⟩ := List.mem_filterMap.mp hmem
  exact anchorCandidate_slash_count scheme netloc a c ha

def w7Anchor : Pipeline.Anchor :=
  { href := "https://ex.com/a/b".toList, text := "Un titular bastante largo".toList }

def w7Cand : Orchestrator.Candidate :=
  { title := "Un titular bastante largo".toList, url := "https://ex.com/a/b".toList,
    published := [] }

/-- C7 (corrected): an anchor whose resolved href has a URL path with only 2
path separators (fewer than 4) is NOT discarded — the code counts the 4
slashes of the whole URL `https://ex.com/a/b`, so the candidate is returned
even though its path `/a/b` has fewer than 4 separators. -/
theorem html_list_keeps_shallow_path :
    Pipeline.get_urls_from_html_list "https".toList "ex.com".toList [w7Anchor] 60
      = [w7Cand]
    ∧ (Pipeline.urlPath w7Cand.url).count '/' < 4 := by
  decide

theorem html_list_url_slash_count_witness : 4 ≤ w7Cand.url.count '/' :=
  html_list_url_slash_count "https".toList "ex.com".toList [w7Anchor] 60 w7Cand
    (by decide)

/-! ## Branch characterizations of the candidate loop -/

namespace Orchestrator

theorem processCandidate_skip (o : Oracle) (src : SourceInfo) (s : Storage.Store)
    (cnt : Counters) (c : Candidate)
    (hfil : Pipeline.looks_like_combat_sports c.title c.url = true)
    (hhas : Storage.has_url s c.url = true) :
    processCandidate o src s cnt c =
      { events := [], row? := none, store := s,
        counters := { cnt with
          total_candidates := cnt.total_candidates + 1,
          skipped_existing := cnt.skipped_existing + 1 } } := by
  unfold processCandidate
  dsimp only
  rw [if_neg (by simp [hfil]), if_pos hhas]

theorem processCandidate_err (o : Oracle) (src : SourceInfo) (s : Storage.Store)
    (cnt : Counters) (c : Candidate) (ex : Str)
    (hfil : Pipeline.looks_like_combat_sports c.title c.url = true)
    (hhas : Storage.has_url s c.url = false)
    (herr : o.fetch c.url = .error ex ∨
      ∃ st fu html, o.fetch c.url = .ok (st, fu, html) ∧ o.extract html = .error ex) :
    processCandidate o src s cnt c =
      { events := [Event.fetchCall c.url], row? := some (errRow src c ex),
        store := s,
        counters := { cnt with total_candidates := cnt.total_candidates + 1 } } := by
  unfold processCandidate
  dsimp only
  rw [if_neg (by simp [hfil]), if_neg (by simp [hhas])]
  rcases herr with hf | ⟨st, fu, html, hf, he⟩
  · rw [hf]
  · rw [hf]
    dsimp only
    rw [he]

/-- Every branch of one loop iteration either leaves the store alone or
upserts one article built from an extraction that met the threshold; a fetch
event is emitted only when the pre-fetch dedup found the URL absent. -/
theorem processCandidate_spec (o : Oracle) (src : SourceInfo) (s : Storage.Store)
    (cnt : Counters) (c : Candidate) :
    ((processCandidate o src s cnt c).events = [] ∨
      ((processCandidate o src s cnt c).events = [Event.fetchCall c.url] ∧
        Storage.has_url s c.url = false)) ∧
    ((processCandidate o src s cnt c).store = s ∨
      ∃ art : Storage.ArticleRow,
        (processCandidate o src s cnt c).store = (Storage.upsertArticle s art).2 ∧
        Pipeline.MIN_CHARS ≤ art.extracted_chars ∧
        ∃ t : Str, art.content_hash = Pipeline.sha o.digest t) := by
  unfold processCandidate
  dsimp only
  by_cases hfil : Pipeline.looks_like_combat_sports c.title c.url = false
  · rw [if_pos hfil]
    exact ⟨Or.inl rfl, Or.inl rfl⟩
  · rw [if_neg hfil]
    by_cases hhas : Storage.has_url s c.url = true
    · rw [if_pos hhas]
      exact ⟨Or.inl rfl, Or.inl rfl⟩
    · rw [if_neg hhas]
      have hhasf : Storage.has_url s c.url = false := by simpa using hhas
      cases hf : o.fetch c.url with
      | error ex =>
        exact ⟨Or.inr ⟨rfl, hhasf⟩, Or.inl rfl⟩
      | ok v =>
        obtain ⟨st, fu, html⟩ := v
        dsimp only
        cases he : o.extract html with
        | error ex =>
          exact ⟨Or.inr ⟨rfl, hhasf⟩, Or.inl rfl⟩
        | ok text =>
          dsimp only
          by_cases hok : decide (Pipeline.MIN_CHARS ≤ text.length) = true
          · rw [if_pos hok]
            refine ⟨Or.inr ⟨rfl, hhasf⟩, Or.inr ⟨_, rfl, ?_, ⟨text, ?_⟩⟩⟩
            · exact of_decide_eq_true hok
            · have hne : text.isEmpty = false := by
                have hlen := of_decide_eq_true hok
                cases text with
                | nil => simp [Pipeline.MIN_CHARS] at hlen
                | cons a b => rfl
              show (if text.isEmpty then [] else Pipeline.sha o.digest text) =
                Pipeline.sha o.digest text
              rw [hne]
              rfl
          · rw [if_neg hok]
            exact ⟨Or.inr ⟨rfl, hhasf⟩, Or.inl rfl⟩

theorem runCandidates_no_fetch (o : Oracle) (src : SourceInfo) (s : Storage.Store)
    (cnt : Counters) (cs : List Candidate) (u : Str)
    (hu : Storage.has_url s u = true) :
    Event.fetchCall u ∉ (runCandidates o src s cnt cs).events ∧
    Storage.has_url (runCandidates o src s cnt cs).store u = true := by
  induction cs generalizing s cnt with
  | nil =>
    exact ⟨by simp [runCandidates], hu⟩
  | cons c cs ih =>
    obtain ⟨hev, hst⟩ := processCandidate_spec o src s cnt c
    have hu' : Storage.has_url (processCandidate o src s cnt c).store u = true := by
      rcases hst with h | ⟨art, heq, _, _⟩
      · rw [h]; exact hu
      · rw [heq]; exact has_url_upsert _ _ _ hu
    obtain ⟨hr1, hr2⟩ :=
      ih (processCandidate o src s cnt c).store (processCandidate o src s cnt c).counters hu'
    constructor
    · show Event.fetchCall u ∉
        ((processCandidate o src s cnt c).events ++
          (runCandidates o src (processCandidate o src s cnt c).store
            (processCandidate o src s cnt c).counters cs).events)
      rw [List.mem_append]
      rintro (h | h)
      · rcases hev with he | ⟨he, hhasf⟩
        · rw [he] at h
          simp at h
        · rw [he] at h
          have : u = c.url := by simpa using h
          rw [this] at hu
          rw [hu] at hhasf
          exact absurd hhasf (by decide)
      · exact hr1 h
    · exact hr2

end Orchestrator

/-! ## Claim C3: dedup check precedes fetch -/

/-- C3: for every URL with a row in the articles table, `has_url` returns
true, the candidate loop never issues a fetch for that URL, and a candidate
with that URL which passes the topic filter is skipped without any event or
store change, counting it as `skipped_existing`. -/
theorem stored_url_never_fetched
    (o : Orchestrator.Oracle) (src : Orchestrator.SourceInfo) (s : Storage.Store)
    (cnt : Orchestrator.Counters) (cs : List Orchestrator.Candidate)
    (u : Str) (r : Storage.ArticleRow) (hr : r ∈ s) (hru : r.url = u) :
    Storage.has_url s u = true
    ∧ Orchestrator.Event.fetchCall u ∉ (Orchestrator.runCandidates o src s cnt cs).events
    ∧ (∀ c : Orchestrator.Candidate, c.url = u →
        Pipeline.looks_like_combat_sports c.title c.url = true →
        (Orchestrator.processCandidate o src s cnt c).events = []
        ∧ (Orchestrator.processCandidate o src s cnt c).store = s
        ∧ (Orchestrator.processCandidate o src s cnt c).counters.skipped_existing
            = cnt.skipped_existing + 1) := by
  have hu : Storage.has_url s u = true := (has_url_iff s u).mpr ⟨r, hr, hru⟩
  refine ⟨hu, (Orchestrator.runCandidates_no_fetch o src s cnt cs u hu).1, ?_⟩
  intro c hcu hfil
  have hhas : Storage.has_url s c.url = true := by rw [hcu]; exact hu
  rw [Orchestrator.processCandidate_skip o src s cnt c hfil hhas]
  exact ⟨rfl, rfl, rfl⟩

def w3Row : Storage.ArticleRow :=
  { url := "https://example.com/ufc-ya-guardado".toList,
    final_url := "https://example.com/ufc-ya-guardado".toList,
    title := "guardado".toList, source := "marca_portada".toList, published := [],
    domain := "example.com".toList, fetched_at := "2025-06-01T00:00:00+00:00".toList,
    extracted_chars := 1000, content_hash := "cc".toList, text := "z".toList }

def w3Cand : Orchestrator.Candidate :=
  { title := "UFC: combate confirmado".toList,
    url := "https://example.com/ufc-ya-guardado".toList, published := [] }

def w3Src : Orchestrator.SourceInfo :=
  { name := "marca_portada".toList, stype := "rss".toList,
    surl := "https://e00-marca.uecdn.es/rss/portada.xml".toList }

def w3Cnt : Orchestrator.Counters := ⟨0, 0, 0, 0, 0⟩

def w3Oracle : Orchestrator.Oracle :=
  { fetch := fun _ => .error "ConnectError".toList,
    extract := fun h => .ok h,
    digest := fun _ => "0".toList,
    netloc := fun _ => "example.com".toList,
    now := "2026-01-01T00:00:00+00:00".toList }

theorem stored_url_never_fetched_witness :
    Storage.has_url [w3Row] "https://example.com/ufc-ya-guardado".toList = true
    ∧ Orchestrator.Event.fetchCall "https://example.com/ufc-ya-guardado".toList ∉
        (Orchestrator.runCandidates w3Oracle w3Src [w3Row] w3Cnt [w3Cand]).events :=
  ⟨(stored_url_never_fetched w3Oracle w3Src [w3Row] w3Cnt [w3Cand]
      "https://example.com/ufc-ya-guardado".toList w3Row (by decide) (by decide)).1,
   (stored_url_never_fetched w3Oracle w3Src [w3Row] w3Cnt [w3Cand]
      "https://example.com/ufc-ya-guardado".toList w3Row (by decide) (by decide)).2.1⟩

/-! ## Claim C8: per-candidate exception handling -/

/-- C8: if `fetch` or `extract_text` raises on one candidate, the loop
records a debug row with null `http_status`, `final_url` and `domain`, zero
`extracted_chars`, `extract_ok` false and the exception text as `error`,
writes nothing to the store, and continues with the remaining candidates
from the unchanged store. -/
theorem fetch_error_row_and_continue
    (o : Orchestrator.Oracle) (src : Orchestrator.SourceInfo) (s : Storage.Store)
    (cnt : Orchestrator.Counters) (c : Orchestrator.Candidate)
    (cs : List Orchestrator.Candidate) (ex : Str)
    (hfil : Pipeline.looks_like_combat_sports c.title c.url = true)
    (hhas : Storage.has_url s c.url = false)
    (herr : o.fetch c.url = .error ex ∨
      ∃ st fu html, o.fetch c.url = .ok (st, fu, html) ∧ o.extract html = .error ex) :
    Orchestrator.runCandidates o src s cnt (c :: cs) =
      { events := Orchestrator.Event.fetchCall c.url ::
          (Orchestrator.runCandidates o src s
            { cnt with total_candidates := cnt.total_candidates + 1 } cs).events,
        rows := Orchestrator.errRow src c ex ::
          (Orchestrator.runCandidates o src s
            { cnt with total_candidates := cnt.total_candidates + 1 } cs).rows,
        store := (Orchestrator.runCandidates o src s
          { cnt with total_candidates := cnt.total_candidates + 1 } cs).store,
        counters := (Orchestrator.runCandidates o src s
          { cnt with total_candidates := cnt.total_candidates + 1 } cs).counters } := by
  have hstep := Orchestrator.processCandidate_err o src s cnt c ex hfil hhas herr
  show (let st := Orchestrator.processCandidate o src s cnt c
        let rest := Orchestrator.runCandidates o src st.store st.counters cs
        ({ events := st.events ++ rest.events, rows := st.row?.toList ++ rest.rows,
           store := rest.store, counters := rest.counters } : Orchestrator.RunOut)) = _
  rw [hstep]
  rfl

def w8Cand : Orchestrator.Candidate :=
  { title := "UFC noticia importante".toList,
    url := "https://example.com/ufc-nueva".toList, published := [] }

theorem fetch_error_row_and_continue_witness :
    Orchestrator.runCandidates w3Oracle w3Src [] w3Cnt [w8Cand] =
      { events := [Orchestrator.Event.fetchCall "https://example.com/ufc-nueva".toList],
        rows := [Orchestrator.errRow w3Src w8Cand "ConnectError".toList],
        store := [],
        counters := { w3Cnt with total_candidates := w3Cnt.total_candidates + 1 } } :=
  fetch_error_row_and_continue w3Oracle w3Src [] w3Cnt w8Cand [] "ConnectError".toList
    (by decide) (by decide) (Or.inl rfl)

/-! ## Claim C9: stored rows meet the extraction threshold -/

/-- The candidate loop preserves the row invariant: extraction length at
least `MIN_CHARS` and a non-empty content hash. -/
theorem run_store_inv (o : Orchestrator.Oracle) (src : Orchestrator.SourceInfo)
    (cs : List Orchestrator.Candidate) (hd : Orchestrator.GoodDigest o) :
    ∀ (cnt : Orchestrator.Counters) (s : Storage.Store),
      (∀ r ∈ s, Pipeline.MIN_CHARS ≤ r.extracted_chars ∧ r.content_hash ≠ []) →
      ∀ r ∈ (Orchestrator.runCandidates o src s cnt cs).store,
        Pipeline.MIN_CHARS ≤ r.extracted_chars ∧ r.content_hash ≠ [] := by
  induction cs with
  | nil => intro cnt s hinv r hr; exact hinv r hr
  | cons c cs ih =>
    intro cnt s hinv r hr
    have hst := (Orchestrator.processCandidate_spec o src s cnt c).2
    have hinv' : ∀ r ∈ (Orchestrator.processCandidate o src s cnt c).store,
        Pipeline.MIN_CHARS ≤ r.extracted_chars ∧ r.content_hash ≠ [] := by
      rcases hst with h | ⟨art, heq, hlen, t, hhash⟩
      · rw [h]; exact hinv
      · rw [heq]
        intro r hrm
        rcases mem_upsert_store s art r hrm with h | ⟨h1, h2⟩
        · exact hinv r h
        · refine ⟨by rw [h1]; exact hlen, ?_⟩
          rw [h2, hhash]
          exact hd _
    exact ih (Orchestrator.processCandidate o src s cnt c).counters
      (Orchestrator.processCandidate o src s cnt c).store hinv' r hr

/-- C9: in every store state reachable by running the pipeline from an empty
store, every row of the articles table has `extracted_chars ≥ 900`
(`MIN_CHARS`) and a non-empty `content_hash`: the loop upserts only after the
threshold check passes, with the SHA-256 hexdigest of the non-empty text. -/
theorem reachable_store_rows_meet_threshold
    (s : Storage.Store) (hs : Orchestrator.ReachableStore s) :
    ∀ r ∈ s, Pipeline.MIN_CHARS ≤ r.extracted_chars ∧ r.content_hash ≠ [] := by
  induction hs with
  | empty => intro r hr; simp at hr
  | step o src cnt cs hd _ ih => exact run_store_inv o src cs hd cnt _ ih

def w9Oracle : Orchestrator.Oracle :=
  { fetch := fun u => .ok (200, u, "html".toList),
    extract := fun _ => .ok (List.replicate 900 'a'),
    digest := fun _ => "0".toList,
    netloc := fun _ => "example.com".toList,
    now := "2026-01-01T00:00:00+00:00".toList }

def w9Cand : Orchestrator.Candidate :=
  { title := "UFC 300: Topuria retains title".toList,
    url := "https://example.com/ufc-300-topuria".toList, published := [] }

def w9Store : Storage.Store :=
  (Orchestrator.runCandidates w9Oracle w3Src [] w3Cnt [w9Cand]).store

def w9Row : Storage.ArticleRow :=
  { url := w9Cand.url, final_url := w9Cand.url, title := w9Cand.title,
    source := w3Src.name, published := [], domain := "example.com".toList,
    fetched_at := "2026-01-01T00:00:00+00:00".toList, extracted_chars := 900,
    content_hash := "0".toList, text := List.replicate 900 'a' }

theorem w9Oracle_good : Orchestrator.GoodDigest w9Oracle := by
  intro t
  show ("0".toList : Str) ≠ []
  decide

set_option maxRecDepth 10000 in
theorem reachable_store_rows_meet_threshold_witness :
    Pipeline.MIN_CHARS ≤ w9Row.extracted_chars ∧ w9Row.content_hash ≠ [] :=
  reachable_store_rows_meet_threshold w9Store
    (Orchestrator.ReachableStore.step w9Oracle w3Src w3Cnt [w9Cand] w9Oracle_good
      Orchestrator.ReachableStore.empty)
    w9Row (by decide)
